import Mathlib

/-!
Verification of the packet transport layer of a TDS (tabular data stream)
client library, against its natural-language specification.

The embedding below is a shallow Lean model of `tds/packetHeader.go` and
`tds/dynamicstatustype_string.go`.  Go machine integers are modelled as
`Nat` with explicit `% 2 ^ w` at every conversion the Go code performs;
byte buffers are `List Nat` whose elements stand for bytes (the theorems
carry `< 256` bounds where the Go type system guarantees them).  Fallible
functions return their Go result tuple with an `Option String` error
component.
-/

/- ### PacketHeader (tds/packetHeader.go) -/

/-- `PacketHeaderSize` — default size of a packet-header. -/
def PacketHeaderSize : Nat := 8

/-- `PacketHeader` — fields model Go `uint8`/`uint16` machine values as
`Nat`; `PacketHeader.WF` states the bounds the Go types impose. -/
structure PacketHeader where
  MsgType : Nat
  Status : Nat
  Length : Nat
  Channel : Nat
  PacketNr : Nat
  Window : Nat
deriving DecidableEq

/-- The bounds Go's `uint8`/`uint16` field types impose on every
`PacketHeader` value. -/
def PacketHeader.WF (h : PacketHeader) : Prop :=
  h.MsgType < 256 ∧ h.Status < 256 ∧ h.Length < 65536 ∧
    h.Channel < 65536 ∧ h.PacketNr < 256 ∧ h.Window < 256

instance (h : PacketHeader) : Decidable h.WF := by
  unfold PacketHeader.WF; infer_instance

/-- `PacketHeader.Read` — encodes the header into `bs`.  The Go code
checks `len(bs) != PacketHeaderSize`, then assigns all eight bytes of the
buffer; we model the mutated buffer as the returned list.  Byte stores
truncate to the machine value (`% 256`); `binary.BigEndian.PutUint16`
writes high byte then low byte.  Returns `(count, buffer, error)`. -/
def PacketHeader.Read (header : PacketHeader) (bs : List Nat) :
    Nat × List Nat × Option String :=
  if bs.length ≠ PacketHeaderSize then
    (0, bs, some ("target buffer has unexpected length, expected 8 bytes, buffer length is "
      ++ toString bs.length))
  else
    (PacketHeaderSize,
     [header.MsgType % 256, header.Status % 256,
      header.Length / 256 % 256, header.Length % 256,
      header.Channel / 256 % 256, header.Channel % 256,
      header.PacketNr % 256, header.Window % 256],
     none)

/-- `PacketHeader.Write` — decodes `bs` into the header.  The Go code
checks `len(bs) != PacketHeaderSize` (returning `0` and an error with the
receiver unmodified), then assigns every field;
`binary.BigEndian.Uint16(bs[i:i+2])` is `bs[i] * 256 + bs[i+1]` for byte
values.  Returns `(count, updated header, error)`. -/
def PacketHeader.Write (header : PacketHeader) (bs : List Nat) :
    Nat × PacketHeader × Option String :=
  if bs.length ≠ PacketHeaderSize then
    (0, header, some ("passed buffer has unexpected length, expected 8 bytes, buffer length is "
      ++ toString bs.length))
  else
    (PacketHeaderSize,
     { MsgType := bs.getD 0 0 % 256, Status := bs.getD 1 0 % 256,
       Length := bs.getD 2 0 * 256 + bs.getD 3 0,
       Channel := bs.getD 4 0 * 256 + bs.getD 5 0,
       PacketNr := bs.getD 6 0 % 256, Window := bs.getD 7 0 % 256 },
     none)

/-- C1: for every well-formed `PacketHeader` `h`, encoding it into an
8-byte buffer via `PacketHeader.Read` and decoding the produced bytes via
`PacketHeader.Write` (into any receiver `g`) succeeds and yields exactly
`h` back: `decode (encode h) = h`. -/
theorem header_roundtrip (h g : PacketHeader) (bs : List Nat)
    (hwf : h.WF) (hbs : bs.length = 8) :
    ∃ out, h.Read bs = (8, out, none) ∧ g.Write out = (8, h, none) := by
  obtain ⟨m, s, L, c, p, w⟩ := h
  obtain ⟨h1, h2, h3, h4, h5, h6⟩ := hwf
  simp only [PacketHeader.WF] at h1 h2 h3 h4 h5 h6
  refine ⟨[m % 256, s % 256, L / 256 % 256, L % 256, c / 256 % 256, c % 256,
    p % 256, w % 256], ?_, ?_⟩
  · simp [PacketHeader.Read, PacketHeaderSize, hbs]
  · simp only [PacketHeader.Write, PacketHeaderSize, List.getD, List.length_cons,
      List.length_nil]
    norm_num [PacketHeader.mk.injEq]
    refine ⟨by omega, by omega, by omega, by omega, by omega, by omega⟩

/-- C1 witness at a concrete header. -/
theorem header_roundtrip_witness :
    (PacketHeader.WF ⟨6, 1, 512, 3, 7, 2⟩ ∧ ([0, 0, 0, 0, 0, 0, 0, 0] : List Nat).length = 8) ∧
    ∃ out, PacketHeader.Read ⟨6, 1, 512, 3, 7, 2⟩ [0, 0, 0, 0, 0, 0, 0, 0] = (8, out, none) ∧
      PacketHeader.Write ⟨0, 0, 0, 0, 0, 0⟩ out = (8, ⟨6, 1, 512, 3, 7, 2⟩, none) :=
  ⟨⟨by decide, by decide⟩,
    header_roundtrip ⟨6, 1, 512, 3, 7, 2⟩ ⟨0, 0, 0, 0, 0, 0⟩ [0, 0, 0, 0, 0, 0, 0, 0]
      (by decide) (by decide)⟩

/-- Any list of length 8 is literally an 8-element list. -/
theorem list_length_eight_cases {l : List Nat} (h : l.length = 8) :
    ∃ a b c d e f g h', l = [a, b, c, d, e, f, g, h'] := by
  match l, h with
  | [a, b, c, d, e, f, g, h'], _ => exact ⟨a, b, c, d, e, f, g, h', rfl⟩

/-- C2: encoding a well-formed header with `PacketHeader.Read` writes
exactly 8 bytes in big-endian layout: byte 0 is `MsgType`, byte 1 is
`Status`, bytes 2-3 are `Length` as a big-endian `u16`, bytes 4-5 are
`Channel` as a big-endian `u16`, byte 6 is `PacketNr`, byte 7 is
`Window`; every entry is a byte value and there is no padding or
checksum. -/
theorem header_encode_layout (h : PacketHeader) (bs : List Nat)
    (hwf : h.WF) (hbs : bs.length = 8) :
    ∃ out, h.Read bs = (8, out, none) ∧
      out.length = 8 ∧
      out.getD 0 0 = h.MsgType ∧
      out.getD 1 0 = h.Status ∧
      out.getD 2 0 = h.Length / 256 ∧ out.getD 3 0 = h.Length % 256 ∧
      out.getD 2 0 * 256 + out.getD 3 0 = h.Length ∧
      out.getD 4 0 = h.Channel / 256 ∧ out.getD 5 0 = h.Channel % 256 ∧
      out.getD 4 0 * 256 + out.getD 5 0 = h.Channel ∧
      out.getD 6 0 = h.PacketNr ∧
      out.getD 7 0 = h.Window ∧
      ∀ b ∈ out, b < 256 := by
  obtain ⟨m, s, L, c, p, w⟩ := h
  obtain ⟨h1, h2, h3, h4, h5, h6⟩ := hwf
  simp only [PacketHeader.WF] at h1 h2 h3 h4 h5 h6
  refine ⟨[m % 256, s % 256, L / 256 % 256, L % 256, c / 256 % 256, c % 256,
    p % 256, w % 256], ?_, ?_⟩
  · simp [PacketHeader.Read, PacketHeaderSize, hbs]
  · simp only [List.getD_cons_zero, List.getD_cons_succ]
    refine ⟨rfl, by omega, by omega, by omega, trivial, by omega,
      by omega, trivial, by omega, by omega, by omega, ?_⟩
    intro b hb
    simp only [List.mem_cons, List.not_mem_nil, or_false] at hb
    rcases hb with rfl | rfl | rfl | rfl | rfl | rfl | rfl | rfl <;> omega

/-- C2 witness at a concrete header. -/
theorem header_encode_layout_witness :
    (PacketHeader.WF ⟨15, 16, 300, 2, 1, 0⟩ ∧
      ([9, 9, 9, 9, 9, 9, 9, 9] : List Nat).length = 8) ∧
    ∃ out, PacketHeader.Read ⟨15, 16, 300, 2, 1, 0⟩ [9, 9, 9, 9, 9, 9, 9, 9] = (8, out, none) ∧
      out.length = 8 ∧
      out.getD 0 0 = 15 ∧ out.getD 1 0 = 16 ∧
      out.getD 2 0 = 300 / 256 ∧ out.getD 3 0 = 300 % 256 ∧
      out.getD 2 0 * 256 + out.getD 3 0 = 300 ∧
      out.getD 4 0 = 2 / 256 ∧ out.getD 5 0 = 2 % 256 ∧
      out.getD 4 0 * 256 + out.getD 5 0 = 2 ∧
      out.getD 6 0 = 1 ∧ out.getD 7 0 = 0 ∧
      ∀ b ∈ out, b < 256 :=
  ⟨⟨by decide, by decide⟩,
    header_encode_layout ⟨15, 16, 300, 2, 1, 0⟩ [9, 9, 9, 9, 9, 9, 9, 9]
      (by decide) (by decide)⟩

/-- C4: both codec directions size-check the buffer and nothing else:
`PacketHeader.Write` fails — count 0, an error, receiver unchanged —
exactly when the buffer length is not 8, `PacketHeader.Read` fails
exactly when the destination length is not 8, and on every 8-byte buffer
both succeed with count 8. -/
theorem header_codec_size_check (g h : PacketHeader) (bs : List Nat) :
    ((g.Write bs).2.2 ≠ none ↔ bs.length ≠ 8) ∧
    ((h.Read bs).2.2 ≠ none ↔ bs.length ≠ 8) ∧
    (bs.length ≠ 8 →
      g.Write bs = (0, g,
        some ("passed buffer has unexpected length, expected 8 bytes, buffer length is "
          ++ toString bs.length)) ∧
      h.Read bs = (0, bs,
        some ("target buffer has unexpected length, expected 8 bytes, buffer length is "
          ++ toString bs.length))) ∧
    (bs.length = 8 →
      (∃ h2, g.Write bs = (8, h2, none)) ∧
      (∃ out, h.Read bs = (8, out, none))) := by
  by_cases hl : bs.length = 8
  · refine ⟨?_, ?_, ?_, ?_⟩
    · simp [PacketHeader.Write, PacketHeaderSize, hl]
    · simp [PacketHeader.Read, PacketHeaderSize, hl]
    · intro hc; exact absurd hl hc
    · intro _
      constructor
      · exact ⟨⟨bs.getD 0 0 % 256, bs.getD 1 0 % 256,
          bs.getD 2 0 * 256 + bs.getD 3 0, bs.getD 4 0 * 256 + bs.getD 5 0,
          bs.getD 6 0 % 256, bs.getD 7 0 % 256⟩,
          by simp [PacketHeader.Write, PacketHeaderSize, hl]⟩
      · exact ⟨[h.MsgType % 256, h.Status % 256, h.Length / 256 % 256,
          h.Length % 256, h.Channel / 256 % 256, h.Channel % 256,
          h.PacketNr % 256, h.Window % 256],
          by simp [PacketHeader.Read, PacketHeaderSize, hl]⟩
  · refine ⟨?_, ?_, ?_, ?_⟩
    · simp [PacketHeader.Write, PacketHeaderSize, hl]
    · simp [PacketHeader.Read, PacketHeaderSize, hl]
    · intro _
      exact ⟨by simp [PacketHeader.Write, PacketHeaderSize, hl],
        by simp [PacketHeader.Read, PacketHeaderSize, hl]⟩
    · intro hc; exact absurd hc hl

/-- C4 witness: a 3-byte buffer makes both directions fail with count 0
and the receiver/buffer unchanged; an 8-byte buffer makes both succeed. -/
theorem header_codec_size_check_witness :
    (PacketHeader.Write ⟨0, 0, 0, 0, 0, 0⟩ [1, 2, 3] = (0, ⟨0, 0, 0, 0, 0, 0⟩,
        some ("passed buffer has unexpected length, expected 8 bytes, buffer length is "
          ++ toString ([1, 2, 3] : List Nat).length)) ∧
      PacketHeader.Read ⟨0, 0, 0, 0, 0, 0⟩ [1, 2, 3] = (0, [1, 2, 3],
        some ("target buffer has unexpected length, expected 8 bytes, buffer length is "
          ++ toString ([1, 2, 3] : List Nat).length))) ∧
    ((∃ h2, PacketHeader.Write ⟨0, 0, 0, 0, 0, 0⟩ [0, 0, 0, 0, 0, 0, 0, 0] = (8, h2, none)) ∧
      (∃ out, PacketHeader.Read ⟨0, 0, 0, 0, 0, 0⟩ [0, 0, 0, 0, 0, 0, 0, 0] = (8, out, none))) :=
  ⟨(header_codec_size_check ⟨0, 0, 0, 0, 0, 0⟩ ⟨0, 0, 0, 0, 0, 0⟩ [1, 2, 3]).2.2.1
      (by decide),
    (header_codec_size_check ⟨0, 0, 0, 0, 0, 0⟩ ⟨0, 0, 0, 0, 0, 0⟩
      [0, 0, 0, 0, 0, 0, 0, 0]).2.2.2 (by decide)⟩

/-- C8: `PacketHeader.Write` is total on 8-byte buffers — it succeeds on
every byte contents with no validation of `MsgType`, `Status` or
`Length` — and re-encoding the decoded header with `PacketHeader.Read`
reproduces the original 8 bytes exactly: `encode (decode bs) = bs`. -/
theorem decode_encode_roundtrip (g : PacketHeader) (bs cs : List Nat)
    (hbs : bs.length = 8) (hb : ∀ b ∈ bs, b < 256) (hcs : cs.length = 8) :
    ∃ h2, g.Write bs = (8, h2, none) ∧ h2.Read cs = (8, bs, none) := by
  obtain ⟨b0, b1, b2, b3, b4, b5, b6, b7, rfl⟩ := list_length_eight_cases hbs
  have k0 : b0 < 256 := hb b0 (by simp)
  have k1 : b1 < 256 := hb b1 (by simp)
  have k2 : b2 < 256 := hb b2 (by simp)
  have k3 : b3 < 256 := hb b3 (by simp)
  have k4 : b4 < 256 := hb b4 (by simp)
  have k5 : b5 < 256 := hb b5 (by simp)
  have k6 : b6 < 256 := hb b6 (by simp)
  have k7 : b7 < 256 := hb b7 (by simp)
  refine ⟨⟨b0 % 256, b1 % 256, b2 * 256 + b3, b4 * 256 + b5,
    b6 % 256, b7 % 256⟩, ?_, ?_⟩
  · simp [PacketHeader.Write, PacketHeaderSize]
  · simp only [PacketHeader.Read, PacketHeaderSize, hcs]
    norm_num
    refine ⟨by omega, by omega, by omega, by omega, by omega, by omega,
      by omega, by omega⟩

/-- C8 witness at a concrete 8-byte buffer. -/
theorem decode_encode_roundtrip_witness :
    (([255, 1, 2, 42, 0, 9, 8, 7] : List Nat).length = 8 ∧
      (∀ b ∈ ([255, 1, 2, 42, 0, 9, 8, 7] : List Nat), b < 256) ∧
      ([0, 0, 0, 0, 0, 0, 0, 0] : List Nat).length = 8) ∧
    ∃ h2, PacketHeader.Write ⟨0, 0, 0, 0, 0, 0⟩ [255, 1, 2, 42, 0, 9, 8, 7] = (8, h2, none) ∧
      h2.Read [0, 0, 0, 0, 0, 0, 0, 0] = (8, [255, 1, 2, 42, 0, 9, 8, 7], none) :=
  ⟨⟨by decide, by decide, by decide⟩,
    decode_encode_roundtrip ⟨0, 0, 0, 0, 0, 0⟩ [255, 1, 2, 42, 0, 9, 8, 7]
      [0, 0, 0, 0, 0, 0, 0, 0] (by decide) (by decide) (by decide)⟩

/- ### PacketHeader.ReadFrom (tds/packetHeader.go) -/

/-- Outcome of the single `r.Read(bs)` call inside
`PacketHeader.ReadFrom`: `some .eof` models `io.EOF` (also when wrapped,
since the Go code tests it with `errors.Is`), `some .other` any other
read error, `none` a nil error. -/
inductive GoReadError where
  | eof
  | other
deriving DecidableEq

/-- Result of `PacketHeader.ReadFrom`: either the sentinel
`ErrEOFAfterZeroRead` (returned with count 0), an ordinary
`fmt.Errorf`-wrapped read error with the partial count, an error
propagated from `PacketHeader.Write`, or success. -/
inductive ReadFromResult where
  | eofAfterZeroRead
  | readError (n : Nat)
  | writeError (n : Nat)
  | ok (n : Nat) (updated : PacketHeader)
deriving DecidableEq

/-- `PacketHeader.ReadFrom` — the Go code allocates an 8-byte buffer,
performs one `r.Read`, and on `err != nil || n != 8` returns
`ErrEOFAfterZeroRead` when `n == 0 && errors.Is(err, io.EOF)` and an
ordinary error otherwise; on a full 8-byte read it decodes via
`header.Write`.  The single read call's outcome is passed in as
`(n, bs, e)`: bytes read, buffer contents after the read, error. -/
def PacketHeader.ReadFrom (header : PacketHeader) (n : Nat) (bs : List Nat)
    (e : Option GoReadError) : ReadFromResult :=
  if e ≠ none ∨ n ≠ PacketHeaderSize then
    if n = 0 ∧ e = some .eof then .eofAfterZeroRead
    else .readError n
  else
    match header.Write bs with
    | (m, h2, none) => .ok m h2
    | (m, _, some _) => .writeError m

/-- C3: a read that returns zero bytes together with `io.EOF` and no
consumed header bytes yields the distinct `ErrEOFAfterZeroRead`
condition, not a framing error; a read that consumed some but fewer than
8 header bytes yields an ordinary error and never `ErrEOFAfterZeroRead`,
whatever the accompanying error was. -/
theorem readFrom_clean_close_distinct (h : PacketHeader) (bs : List Nat) :
    h.ReadFrom 0 bs (some .eof) = .eofAfterZeroRead ∧
    (∀ n e, 0 < n → n < 8 → h.ReadFrom n bs e = .readError n) := by
  constructor
  · simp [PacketHeader.ReadFrom, PacketHeaderSize]
  · intro n e h1 h2
    have hne : n ≠ 8 := by omega
    have hnz : n ≠ 0 := by omega
    simp [PacketHeader.ReadFrom, PacketHeaderSize, hne, hnz]

/-- C3 witness: a clean zero-byte EOF read versus a 3-byte partial read. -/
theorem readFrom_clean_close_distinct_witness :
    ((0 : Nat) < 3 ∧ (3 : Nat) < 8) ∧
    PacketHeader.ReadFrom ⟨0, 0, 0, 0, 0, 0⟩ 0 [] (some .eof) = .eofAfterZeroRead ∧
    PacketHeader.ReadFrom ⟨0, 0, 0, 0, 0, 0⟩ 3 [] (some .eof) = .readError 3 :=
  ⟨⟨by decide, by decide⟩,
    (readFrom_clean_close_distinct ⟨0, 0, 0, 0, 0, 0⟩ []).1,
    (readFrom_clean_close_distinct ⟨0, 0, 0, 0, 0, 0⟩ []).2 3 (some .eof)
      (by decide) (by decide)⟩

/- ### NewPacketHeader and the packet-header type constants
     (tds/packetHeader.go) -/

/-- `NewPacketHeader` — the Go function takes an `int` and performs the
unchecked conversion `uint16(packetSize)` for `Length` (the low 16 bits
of the two's-complement value, i.e. `packetSize mod 2^16`); all other
fields are left at their Go zero values. -/
def NewPacketHeader (packetSize : Int) : PacketHeader :=
  { MsgType := 0, Status := 0, Length := (packetSize % 65536).toNat,
    Channel := 0, PacketNr := 0, Window := 0 }

/-- The `PacketHeaderType` constants, declared with `iota + 1`. -/
def TDS_BUF_LANG : Nat := 1
def TDS_BUF_LOGIN : Nat := 2
def TDS_BUF_RPC : Nat := 3
def TDS_BUF_RESPONSE : Nat := 4
def TDS_BUF_UNFMT : Nat := 5
def TDS_BUF_ATTN : Nat := 6
def TDS_BUF_BULK : Nat := 7
def TDS_BUF_SETUP : Nat := 8
def TDS_BUF_CLOSE : Nat := 9
def TDS_BUF_ERROR : Nat := 10
def TDS_BUF_PROTACK : Nat := 11
def TDS_BUF_ECHO : Nat := 12
def TDS_BUF_LOGOUT : Nat := 13
def TDS_BUF_ENDPARAM : Nat := 14
def TDS_BUF_NORMAL : Nat := 15
def TDS_BUF_URGENT : Nat := 16
def TDS_BUF_MIGRATE : Nat := 17
def TDS_BUF_HELLO : Nat := 18
def TDS_BUF_CMDSEQ_NORMAL : Nat := 19
def TDS_BUF_CMDSEQ_LOGIN : Nat := 20
def TDS_BUF_CMDSEQ_LIVENESS : Nat := 21
def TDS_BUF_CMDSEQ_RESERVED1 : Nat := 22
def TDS_BUF_CMDSEQ_RESERVED2 : Nat := 23

/-- The defined `PacketHeaderType` values, in declaration order. -/
def packetHeaderTypeValues : List Nat :=
  [TDS_BUF_LANG, TDS_BUF_LOGIN, TDS_BUF_RPC, TDS_BUF_RESPONSE,
   TDS_BUF_UNFMT, TDS_BUF_ATTN, TDS_BUF_BULK, TDS_BUF_SETUP,
   TDS_BUF_CLOSE, TDS_BUF_ERROR, TDS_BUF_PROTACK, TDS_BUF_ECHO,
   TDS_BUF_LOGOUT, TDS_BUF_ENDPARAM, TDS_BUF_NORMAL, TDS_BUF_URGENT,
   TDS_BUF_MIGRATE, TDS_BUF_HELLO, TDS_BUF_CMDSEQ_NORMAL,
   TDS_BUF_CMDSEQ_LOGIN, TDS_BUF_CMDSEQ_LIVENESS,
   TDS_BUF_CMDSEQ_RESERVED1, TDS_BUF_CMDSEQ_RESERVED2]

/-- C9: `NewPacketHeader` sets `Length` to `packetSize mod 2^16` — the
unchecked `uint16` conversion wraps 70000 to 4464 and -1 to 65535 — and
leaves `MsgType`, `Status`, `Channel`, `PacketNr` and `Window` at zero;
zero is not among the defined `PacketHeaderType` values, which start at
1. -/
theorem newPacketHeader_fields (p : Int) :
    (NewPacketHeader p).Length = (p % 65536).toNat ∧
    (NewPacketHeader p).MsgType = 0 ∧
    (NewPacketHeader p).Status = 0 ∧
    (NewPacketHeader p).Channel = 0 ∧
    (NewPacketHeader p).PacketNr = 0 ∧
    (NewPacketHeader p).Window = 0 ∧
    (NewPacketHeader 70000).Length = 4464 ∧
    (NewPacketHeader (-1)).Length = 65535 ∧
    (0 : Nat) ∉ packetHeaderTypeValues ∧
    packetHeaderTypeValues = [1, 2, 3, 4, 5, 6, 7, 8, 9, 10, 11, 12, 13,
      14, 15, 16, 17, 18, 19, 20, 21, 22, 23] :=
  ⟨rfl, rfl, rfl, rfl, rfl, rfl, by decide, by decide, by decide, by decide⟩

/-- C5 counterexample: `NewPacketHeader 0` is produced by the
constructor yet violates the claimed invariant `8 ≤ Length`. -/
theorem length_invariant_counterexample :
    ¬ (8 ≤ (NewPacketHeader 0).Length) := by decide

/-- C5 (amended): neither `NewPacketHeader` nor `PacketHeader.Write`
enforces the length invariant — `NewPacketHeader` stores `packetSize mod
2^16` unchecked and decoding accepts any `Length` bytes, so headers with
`Length < 8` are produced; `Length = 8 + payload length` holds only when
the caller passes such a `packetSize`. -/
theorem length_invariant_unenforced :
    (∀ p : Int, (NewPacketHeader p).Length = (p % 65536).toNat) ∧
    (NewPacketHeader 0).Length = 0 ∧
    (∃ g : PacketHeader, ∃ bs : List Nat, bs.length = 8 ∧
      ∃ h2, g.Write bs = (8, h2, none) ∧ h2.Length = 0) ∧
    (∀ payloadLen : Nat, payloadLen ≤ 65527 →
      (NewPacketHeader (8 + payloadLen : Nat)).Length = 8 + payloadLen) := by
  refine ⟨fun p => rfl, rfl, ⟨⟨0, 0, 0, 0, 0, 0⟩, [0, 0, 0, 0, 0, 0, 0, 0],
    rfl, ⟨0, 0, 0, 0, 0, 0⟩, by decide, rfl⟩, ?_⟩
  intro payloadLen hle
  simp only [NewPacketHeader]
  omega

/-- C5 (amended) witness at a concrete payload length. -/
theorem length_invariant_unenforced_witness :
    (100 : Nat) ≤ 65527 ∧
    (NewPacketHeader (8 + 100 : Nat)).Length = 8 + 100 :=
  ⟨by decide, length_invariant_unenforced.2.2.2 100 (by decide)⟩

/- ### Message Splitter / Message Assembler (spec sections 4.2 and 4.3;
     the implementation is not among the shown sources, so these are
     modelled from the spec) -/

/-- The `PacketHeaderStatus` bitmask constants (tds/packetHeader.go). -/
def TDS_BUFSTAT_EOM : Nat := 0x1
def TDS_BUFSTAT_ATTNACK : Nat := 0x2
def TDS_BUFSTAT_ATTN : Nat := 0x4
def TDS_BUFSTAT_EVENT : Nat := 0x8
def TDS_BUFSTAT_SEAL : Nat := 0x10
def TDS_BUFSTAT_ENCRYPT : Nat := 0x20
def TDS_BUFSTAT_SYMENCRYPT : Nat := 0x40

/-- A packet: header plus bounded payload (spec section 3,
"Packet = header + payload (length - 8 bytes)"). -/
structure Packet where
  header : PacketHeader
  payload : List Nat
deriving DecidableEq

/-- Modelled from the spec: the Message Splitter (section 4.2), whose
implementation is not among the shown sources.  It repeatedly carves off
up to `M - 8` bytes from the remaining payload, wraps each chunk in a
header with `Length = 8 + chunk length`, the channel fixed for the whole
message, `packetNr` incrementing (mod 256) from the channel's last-used
value, and the caller-supplied status bits OR'd with end-of-message
(`TDS_BUFSTAT_EOM`) only on the final chunk; a zero-length payload still
produces exactly one header-only packet.  The `M - 8 = 0` alternative in
the guard only ensures termination for degenerate `M < 9`, which the
spec excludes. -/
def splitMessage (channel msgType status lastPacketNr M : Nat)
    (payload : List Nat) : List Packet :=
  if h : payload.length ≤ M - 8 ∨ M - 8 = 0 then
    [{ header := { MsgType := msgType,
                   Status := status ||| TDS_BUFSTAT_EOM,
                   Length := 8 + payload.length,
                   Channel := channel,
                   PacketNr := (lastPacketNr + 1) % 256,
                   Window := 0 },
       payload := payload }]
  else
    { header := { MsgType := msgType,
                  Status := status,
                  Length := 8 + (payload.take (M - 8)).length,
                  Channel := channel,
                  PacketNr := (lastPacketNr + 1) % 256,
                  Window := 0 },
      payload := payload.take (M - 8) } ::
      splitMessage channel msgType status ((lastPacketNr + 1) % 256) M
        (payload.drop (M - 8))
termination_by payload.length
decreasing_by
  simp only [List.length_drop]
  omega

/-- Modelled from the spec: the Message Assembler (section 4.3), whose
implementation is not among the shown sources.  Starting from the
channel's accumulator `acc`, it appends each packet's payload and, when
the end-of-message status bit (`TDS_BUFSTAT_EOM`, bit 0) is set,
finalizes and emits the accumulated message and resets the accumulator.
Returns the finalized messages in order together with the accumulator
left after the last packet. -/
def assembleRun (acc : List Nat) : List Packet → List (List Nat) × List Nat
  | [] => ([], acc)
  | p :: ps =>
    if (p.header.Status).testBit 0 then
      ((acc ++ p.payload) :: (assembleRun [] ps).1, (assembleRun [] ps).2)
    else
      assembleRun (acc ++ p.payload) ps

/-- C7: splitting a zero-length payload yields exactly one packet — a
header-only packet with `Length = 8` and the end-of-message bit set (and
there is no other packet that could carry it). -/
theorem split_empty_payload (ch mt st ln M : Nat) :
    splitMessage ch mt st ln M [] =
      [⟨⟨mt, st ||| TDS_BUFSTAT_EOM, 8, ch, (ln + 1) % 256, 0⟩, []⟩] ∧
    (splitMessage ch mt st ln M []).length = 1 ∧
    (st ||| TDS_BUFSTAT_EOM).testBit 0 = true := by
  have he : splitMessage ch mt st ln M [] =
      [⟨⟨mt, st ||| TDS_BUFSTAT_EOM, 8, ch, (ln + 1) % 256, 0⟩, []⟩] := by
    rw [splitMessage]
    simp
  refine ⟨he, by rw [he]; rfl, ?_⟩
  simp [TDS_BUFSTAT_EOM, Nat.testBit_or]

/-- Feeding the splitter's packets for one message to the assembler
appends the whole payload to the accumulator and finalizes exactly one
message, provided the caller-supplied status bits do not already contain
the end-of-message bit. -/
theorem assembleRun_splitMessage (ch mt st M : Nat)
    (hst : st.testBit 0 = false) :
    ∀ n (payload : List Nat), payload.length = n → ∀ acc ln,
      assembleRun acc (splitMessage ch mt st ln M payload) =
        ([acc ++ payload], []) := by
  intro n
  induction n using Nat.strong_induction_on with
  | _ n ih =>
    intro payload hlen acc ln
    rw [splitMessage]
    split
    · simp [assembleRun, TDS_BUFSTAT_EOM, Nat.testBit_or]
    · rename_i hcond
      push_neg at hcond
      obtain ⟨hgt, hc0⟩ := hcond
      simp only [assembleRun, hst, Bool.false_eq_true, if_false]
      have hrec := ih (payload.length - (M - 8)) (by omega)
        (payload.drop (M - 8)) (by simp) (acc ++ payload.take (M - 8))
        ((ln + 1) % 256)
      rw [hrec, List.append_assoc, List.take_append_drop]

/-- The splitter produces `max 1 (ceil (L / (M - 8)))` packets for a
payload of length `L`, for any negotiated maximum packet size `M ≥ 9`. -/
theorem splitMessage_count (ch mt st M : Nat) (hM : 9 ≤ M) :
    ∀ n (payload : List Nat), payload.length = n → ∀ ln,
      (splitMessage ch mt st ln M payload).length =
        max 1 ((payload.length + (M - 8) - 1) / (M - 8)) := by
  intro n
  induction n using Nat.strong_induction_on with
  | _ n ih =>
    intro payload hlen ln
    have hc : 1 ≤ M - 8 := by omega
    rw [splitMessage]
    split
    · rename_i hcond
      have hle : payload.length ≤ M - 8 := by
        rcases hcond with h | h
        · exact h
        · omega
      simp only [List.length_cons, List.length_nil]
      by_cases h0 : payload.length = 0
      · rw [h0]
        have hd : (0 + (M - 8) - 1) / (M - 8) = 0 :=
          Nat.div_eq_of_lt (by omega)
        rw [hd]
        decide
      · have hd : (payload.length + (M - 8) - 1) / (M - 8) = 1 := by
          apply Nat.div_eq_of_lt_le
          · omega
          · omega
        rw [hd]
        decide
    · rename_i hcond
      push_neg at hcond
      obtain ⟨hgt, _⟩ := hcond
      simp only [List.length_cons]
      have hrec := ih (payload.length - (M - 8)) (by omega)
        (payload.drop (M - 8)) (by simp) ((ln + 1) % 256)
      rw [hrec]
      simp only [List.length_drop]
      have e1 : payload.length - (M - 8) + (M - 8) - 1 = payload.length - 1 := by
        omega
      have e2 : payload.length + (M - 8) - 1 = (payload.length - 1) + (M - 8) := by
        omega
      rw [e1, e2, Nat.add_div_right _ (by omega)]
      have h3 : 1 ≤ (payload.length - 1) / (M - 8) := by
        rw [Nat.one_le_div_iff (by omega)]
        omega
      rw [Nat.max_eq_right h3, Nat.max_eq_right (by omega)]

/-- C6: for every payload and every negotiated maximum packet size
`M ≥ 9`, splitting on a channel and reassembling the resulting packet
sequence on the same channel reproduces the payload exactly (one
finalized message, empty leftover accumulator), and the splitter emits
exactly `max 1 (ceil (L / (M - 8)))` packets; the caller-supplied status
bits must not already contain the end-of-message bit. -/
theorem split_assemble_inverse (ch mt st ln M : Nat) (payload : List Nat)
    (hM : 9 ≤ M) (hst : st.testBit 0 = false) :
    assembleRun [] (splitMessage ch mt st ln M payload) = ([payload], []) ∧
    (splitMessage ch mt st ln M payload).length =
      max 1 ((payload.length + (M - 8) - 1) / (M - 8)) := by
  constructor
  · have := assembleRun_splitMessage ch mt st M hst payload.length payload rfl
      [] ln
    simpa using this
  · exact splitMessage_count ch mt st M hM payload.length payload rfl ln

/-- C6 witness at the spec's own scenario: max packet size 16, a 20-byte
payload on channel 3 splits into 3 packets and reassembles exactly. -/
theorem split_assemble_inverse_witness :
    ((9 : Nat) ≤ 16 ∧ (0 : Nat).testBit 0 = false) ∧
    assembleRun [] (splitMessage 3 15 0 0 16
        [1, 2, 3, 4, 5, 6, 7, 8, 9, 10, 11, 12, 13, 14, 15, 16, 17, 18, 19, 20]) =
      ([[1, 2, 3, 4, 5, 6, 7, 8, 9, 10, 11, 12, 13, 14, 15, 16, 17, 18, 19, 20]], []) ∧
    (splitMessage 3 15 0 0 16
        [1, 2, 3, 4, 5, 6, 7, 8, 9, 10, 11, 12, 13, 14, 15, 16, 17, 18, 19, 20]).length =
      max 1 (([1, 2, 3, 4, 5, 6, 7, 8, 9, 10, 11, 12, 13, 14, 15, 16, 17, 18,
        19, 20] : List Nat).length + (16 - 8) - 1) / (16 - 8) :=
  ⟨⟨by decide, by decide⟩,
    (split_assemble_inverse 3 15 0 0 16
      [1, 2, 3, 4, 5, 6, 7, 8, 9, 10, 11, 12, 13, 14, 15, 16, 17, 18, 19, 20]
      (by decide) (by decide)).1,
    (split_assemble_inverse 3 15 0 0 16
      [1, 2, 3, 4, 5, 6, 7, 8, 9, 10, 11, 12, 13, 14, 15, 16, 17, 18, 19, 20]
      (by decide) (by decide)).2⟩

/- ### DynamicStatusType.String (tds/dynamicstatustype_string.go) -/

/-- `DynamicStatusType` — its type declaration is not among the shown
sources, but the generated stringer code in the sources uses the
unsigned-integer pattern (`case i <= 2` with no lower-bound test before
indexing), so the value is modelled as `Nat`. -/
abbrev DynamicStatusType := Nat

/-- Stringer name table (generated code, ASCII only, so Go byte indices
coincide with character indices). -/
def dynamicStatusTypeName0 : String :=
  "TDS_DYNAMIC_UNUSEDTDS_DYNAMIC_HASARGSTDS_DYNAMIC_SUPPRESS_FMT"

/-- Stringer name table. -/
def dynamicStatusTypeName1 : String := "TDS_DYNAMIC_BATCH_PARAMS"

/-- Stringer name table. -/
def dynamicStatusTypeName2 : String := "TDS_DYNAMIC_SUPPRESS_PARAMFMT"

/-- Stringer index array `_DynamicStatusType_index_0 = [...]uint8{0, 18, 37, 61}`. -/
def dynamicStatusTypeIndex0 : List Nat := [0, 18, 37, 61]

/-- Go string slicing `s[a:b]`: in bounds it yields the substring,
out of bounds it panics (modelled as `none`). -/
def goStringSlice (s : String) (a b : Nat) : Option String :=
  if a ≤ b ∧ b ≤ s.length then some ⟨(s.data.take b).drop a⟩ else none

/-- `DynamicStatusType.String` — the generated stringer `String` method:
for `i <= 2` it slices the concatenated name table between
`index_0[i]` and `index_0[i+1]` (array accesses modelled with `get?`,
`none` standing for an index panic), returns the fixed names for 4 and
8, and otherwise formats `"DynamicStatusType(" + strconv.FormatInt(int64(i), 10) + ")"`. -/
def DynamicStatusType.StringGo (i : DynamicStatusType) : Option String :=
  if i ≤ 2 then
    match dynamicStatusTypeIndex0.get? i, dynamicStatusTypeIndex0.get? (i + 1) with
    | some a, some b => goStringSlice dynamicStatusTypeName0 a b
    | _, _ => none
  else if i = 4 then some dynamicStatusTypeName1
  else if i = 8 then some dynamicStatusTypeName2
  else some ("DynamicStatusType(" ++ toString i ++ ")")

/-- C10: the stringer `String` method is total — every array and string
index it performs is in bounds (no `none` is ever produced) — returning
the symbolic name for the defined values 0, 1, 2, 4 and 8 and the
fallback `DynamicStatusType(<n>)` for every other value. -/
theorem dynamicStatusType_string_total (i : Nat) :
    DynamicStatusType.StringGo i =
      some (if i = 0 then "TDS_DYNAMIC_UNUSED"
        else if i = 1 then "TDS_DYNAMIC_HASARGS"
        else if i = 2 then "TDS_DYNAMIC_SUPPRESS_FMT"
        else if i = 4 then "TDS_DYNAMIC_BATCH_PARAMS"
        else if i = 8 then "TDS_DYNAMIC_SUPPRESS_PARAMFMT"
        else "DynamicStatusType(" ++ toString i ++ ")") := by
  by_cases h0 : i = 0
  · subst h0; decide
  by_cases h1 : i = 1
  · subst h1; decide
  by_cases h2 : i = 2
  · subst h2; decide
  by_cases h4 : i = 4
  · subst h4; decide
  by_cases h8 : i = 8
  · subst h8; decide
  have hgt : ¬ i ≤ 2 := by omega
  simp only [DynamicStatusType.StringGo, if_neg hgt, if_neg h4, if_neg h8,
    if_neg h0, if_neg h1, if_neg h2]
